import Mathlib

/-!
# Verification of the subdomain enumerator `src/information_scrp/dome/Subenum.py`

This file is a shallow embedding, in Lean 4, of the subdomain-scanner core of the
repository (`Subenum.py`): the candidate generator, the dedupe helper, the resolver
wrapper `resolve_host`, the wildcard detector `detect_wildcard`, the passive source
`from_crtsh`, the HTTP prober `probe_http`, and the main pipeline
`enumerate_subdomains`.

Modelling conventions:

* Python strings are Lean `String`s; `str.strip`, `str.lower`, `str.endswith` are
  modelled over the character list (`pyStrip`, `pyLower`, `pyEndsWith`); lowercasing
  covers the ASCII letters, which is what hostnames use.
* External network effects are explicit environment parameters.  `DnsEnv.lookup`
  is what the operating-system resolver would answer for a hostname (`none` means
  the lookup raises).  `ScanEnv` packs, for the pipeline: the per-host outcome of
  `resolve_host` (`resolves`), the random labels drawn by `detect_wildcard`
  (`wcLabels`), the availability of the `requests` library, the crt.sh HTTP
  response, and the per-(host, port) outcome of HTTPS/HTTP HEAD requests.
* The pipeline (`worker`, `enumerate_subdomains`) takes the outcome of
  `resolve_host` for each host as the environment field `ScanEnv.resolves`.
  This abstraction is needed because `resolve_host` as implemented in the source
  passes an unsupported `timeout` keyword to `socket.getaddrinfo`, so it raises
  `TypeError` internally and returns `[]` for every host (theorem
  `resolve_host_always_empty` below); the pipeline theorems hold for every value
  of `resolves`, in particular for the constant-empty one.
* Python sets are represented by lists used only through membership,
  non-emptiness, and `sorted(...)`; `sorted(set(...))` is `pySortedSet`.
* `concurrent.futures.ThreadPoolExecutor.map` returns results in input order and
  the pool size `max(4, threads)` does not affect the value computed, so the
  collection loop is modelled sequentially; `threads` is kept as an (inert)
  parameter.
-/

namespace Subenum

/-- Model of Python `str.isspace` on the ASCII whitespace characters
(space, tab, newline, carriage return, vertical tab, form feed). -/
def pyIsSpace (c : Char) : Bool :=
  c = ' ' || c = '\t' || c = '\n' || c = '\r' || c = '\x0b' || c = '\x0c'

/-- Model of Python `str.strip()`: drop whitespace from both ends. -/
def pyStrip (s : String) : String :=
  String.mk (((s.toList.dropWhile pyIsSpace).reverse.dropWhile pyIsSpace).reverse)

/-- Model of Python `str.lower()` (ASCII letters; `Char.toLower` maps `A`-`Z`
to `a`-`z` and is the identity elsewhere). -/
def pyLower (s : String) : String :=
  String.mk (s.toList.map Char.toLower)

/-- Model of Python `s.endswith(t)`. -/
def pyEndsWith (s t : String) : Bool :=
  t.toList.isSuffixOf s.toList

/-- Model of Python `sorted(set(l))` for a list of strings: the distinct
elements in ascending order. -/
def pySortedSet (l : List String) : List String :=
  List.insertionSort (fun a b => a ≤ b) l.dedup

/-- `dedupe` from `Subenum.py` lines 73-80: first-seen-order deduplication,
written with the seen-set accumulator of the source. -/
def dedupeAux (seen : List String) : List String → List String
  | [] => []
  | x :: xs => if x ∈ seen then dedupeAux seen xs else x :: dedupeAux (x :: seen) xs

/-- `dedupe(seq)` from `Subenum.py` lines 73-80. -/
def dedupe (seq : List String) : List String :=
  dedupeAux [] seq


/-- Python exceptions relevant to the embedded code. -/
inductive PyErr
  | typeError
  | gaierror
deriving DecidableEq

/-- External DNS environment: what the operating-system resolver
(`socket.getaddrinfo`) would answer for a hostname.  `none` means the lookup
raises (NXDOMAIN, timeout, network error); `some infos` is the raw address
list, possibly with duplicates and unsorted. -/
structure DnsEnv where
  lookup : String → Option (List String)

/-- The keyword parameters accepted by `socket.getaddrinfo(host, port, ...)`
in CPython: `family`, `type`, `proto`, `flags`.  There is no `timeout`
keyword. -/
def getaddrinfoParams : List String := ["family", "type", "proto", "flags"]

/-- Model of a call `socket.getaddrinfo(host, None, **kwargs)`: a call with an
unknown keyword argument raises `TypeError` before any lookup happens;
otherwise the operating-system resolver is consulted. -/
def getaddrinfoCall (env : DnsEnv) (host : String) (kwargs : List String) :
    Except PyErr (List String) :=
  if kwargs.all (fun k => getaddrinfoParams.contains k) then
    match env.lookup host with
    | some infos => Except.ok infos
    | none => Except.error PyErr.gaierror
  else
    Except.error PyErr.typeError

/-- `resolve_host(host, timeout)` from `Subenum.py` lines 84-93.  The source
calls `socket.getaddrinfo(host, None, proto=socket.IPPROTO_TCP, timeout=timeout)`
— passing the keywords `proto` and `timeout` — inside a `try` whose blanket
`except` returns `[]`; on success it returns `sorted({info[4][0] ...})`, the
sorted set of addresses (`pySortedSet`). -/
def resolve_host (env : DnsEnv) (host : String) (timeout : Rat) : List String :=
  match getaddrinfoCall env host ["proto", "timeout"] with
  | Except.ok infos => pySortedSet infos
  | Except.error _ => []


/-- Environment of the scan pipeline: all external effects it can observe.
`resolves` is the per-host outcome of `resolve_host` (see header comment);
`wcLabels` are the random 16-character labels drawn by `detect_wildcard`;
`requestsAvailable` is whether the `requests` library imported;
`crtshResponse` is the crt.sh HTTP exchange (`none` = `requests.get` raised;
`some (status, payload)` with `payload = none` = `r.json()` raised, and
`payload = some rows` the parsed records, each `row.get("name_value", "")`
being `row.getD ""`); `httpHead`/`httpsHead` give, per host and port, the
status code of a HEAD request or `none` when the request raises. -/
structure ScanEnv where
  resolves : String → List String
  wcLabels : List String
  requestsAvailable : Bool
  crtshResponse : Option (Nat × Option (List (Option String)))
  httpHead : String → Nat → Option Nat
  httpsHead : String → Nat → Option Nat

/-- `detect_wildcard(domain, tries, timeout)` from `Subenum.py` lines 105-115:
resolve `tries` random labels under the domain and accumulate every returned
address.  The accumulated Python set is represented by the concatenated list,
which the pipeline only consults through membership and non-emptiness. -/
def detect_wildcard (env : ScanEnv) (domain : String) (tries : Nat)
    (timeout : Rat) : List String :=
  (env.wcLabels.take tries).flatMap (fun label => env.resolves (label ++ "." ++ domain))

/-- `from_crtsh(domain, timeout)` from `Subenum.py` lines 119-138. -/
def from_crtsh (env : ScanEnv) (domain : String) (timeout : Rat) : List String :=
  if !env.requestsAvailable then []
  else
    match env.crtshResponse with
    | none => []
    | some (status, payload) =>
      if status ≠ 200 then []
      else
        match payload with
        | none => []
        | some rows =>
          let names := rows.flatMap (fun row =>
            ((row.getD "").splitOn "\n").filterMap (fun n0 =>
              let n := pyLower (pyStrip n0)
              if pyEndsWith n ("." ++ domain) || n = domain then some n else none))
          pySortedSet names

/-- The port loop of `probe_http` (`Subenum.py` lines 148-160): for each port,
try HTTPS if not yet resolved, then HTTP if not yet resolved, and stop once
both protocols have a recorded result. -/
def probeLoop (env : ScanEnv) (host : String)
    (http_res https_res : Option (Bool × Nat)) :
    List Nat → Option (Bool × Nat) × Option (Bool × Nat)
  | [] => (http_res, https_res)
  | p :: rest =>
    let https2 := match https_res with
      | some r => some r
      | none =>
        match env.httpsHead host p with
        | some code => some (true, code)
        | none => none
    let http2 := match http_res with
      | some r => some r
      | none =>
        match env.httpHead host p with
        | some code => some (true, code)
        | none => none
    if http2.isSome && https2.isSome then (http2, https2)
    else probeLoop env host http2 https2 rest

/-- `probe_http(host, ports, timeout)` from `Subenum.py` lines 142-161. -/
def probe_http (env : ScanEnv) (host : String) (ports : List Nat)
    (timeout : Rat) : Option (Bool × Nat) × Option (Bool × Nat) :=
  if !env.requestsAvailable then (none, none)
  else probeLoop env host none none ports

/-- The `Finding` dataclass from `Subenum.py` lines 51-59. -/
structure Finding where
  host : String
  addresses : List String
  is_wildcard : Bool
  http_open : Option Bool
  http_status : Option Nat
  https_open : Option Bool
  https_status : Option Nat
deriving DecidableEq

/-- The sort key `lambda x: x.host` of `Subenum.py` line 214. -/
def findingLe (a b : Finding) : Prop := a.host ≤ b.host

instance : DecidableRel findingLe := fun a b =>
  (inferInstance : Decidable (a.host ≤ b.host))

instance : IsTotal Finding findingLe := ⟨fun a b => le_total a.host b.host⟩

instance : IsTrans Finding findingLe := ⟨fun _ _ _ h1 h2 => le_trans h1 h2⟩

/-- The comprehension `[f"{w.strip().lower()}.{domain}" for w in words if w.strip()]`
of `Subenum.py` line 177. -/
def candidateSeq (domain : String) (words : List String) : List String :=
  (words.filter (fun w => pyStrip w ≠ "")).map
    (fun w => pyLower (pyStrip w) ++ "." ++ domain)

/-- Candidate generation of `Subenum.py` lines 177-178 (`buildCandidates` in
the specification): the comprehension followed by `dedupe`. -/
def buildCandidates (domain : String) (words : List String) : List String :=
  dedupe (candidateSeq domain words)

/-- The candidate list used by `enumerate_subdomains` (`Subenum.py` lines
176-183): brute-force candidates, optionally merged with the passive source
and re-deduplicated. -/
def candidatesOf (env : ScanEnv) (domain : String) (words : List String)
    (use_passive : Bool) : List String :=
  let candidates := buildCandidates domain words
  if use_passive then dedupe (candidates ++ from_crtsh env domain 8) else candidates

/-- The `worker` closure of `Subenum.py` lines 190-206.  `wildcard_ips` is the
wildcard address set; the subset test `set(addrs).issubset(wildcard_ips)` is
membership of every address, guarded by the set being non-empty.  When the
finding is not wildcard noise and probing is on, the prober's results fill the
optional fields (a `(True, status)` tuple is always truthy). -/
def worker (env : ScanEnv) (wildcard_ips : List String) (timeout : Rat)
    (probe : Bool) (ports : List Nat) (host : String) : Option Finding :=
  let addrs := env.resolves host
  if addrs = [] then none
  else
    let is_wc : Bool := !wildcard_ips.isEmpty && addrs.all (fun a => wildcard_ips.contains a)
    let f0 : Finding := ⟨host, addrs, is_wc, none, none, none, none⟩
    if !is_wc && probe then
      let res := probe_http env host ports 3
      let f1 := match res.1 with
        | some pr => { f0 with http_open := some pr.1, http_status := some pr.2 }
        | none => f0
      let f2 := match res.2 with
        | some pr => { f1 with https_open := some pr.1, https_status := some pr.2 }
        | none => f1
      some f2
    else some f0

/-- The defaulting `ports = ports or [80, 443]` of `Subenum.py` line 174:
Python `or` replaces both `None` and the (falsy) empty list. -/
def portsOf (ports : Option (List Nat)) : List Nat :=
  match ports with
  | some ps => if ps = [] then [80, 443] else ps
  | none => [80, 443]

/-- `enumerate_subdomains` from `Subenum.py` lines 165-215.  `ports` is the
optional argument (`ports or [80, 443]` defaults both `None` and `[]`);
`threads` only sizes the worker pool (`max(4, threads)`) and cannot affect the
value; `ThreadPoolExecutor.map` yields results in input order, so the
collection loop is sequential. -/
def enumerate_subdomains (env : ScanEnv) (domain : String) (words : List String)
    (threads : Nat) (timeout : Rat) (use_passive : Bool) (probe : Bool)
    (ports : Option (List Nat)) : List Finding :=
  let ports2 := portsOf ports
  let cands := candidatesOf env domain words use_passive
  let wildcard_ips := detect_wildcard env domain 3 timeout
  let collected := (cands.filterMap (worker env wildcard_ips timeout probe ports2)).filter
    (fun f => !f.is_wildcard)
  List.insertionSort findingLe collected

/-- The process-wide socket configuration mutated by
`socket.setdefaulttimeout` (`Subenum.py` lines 95-103). -/
structure SockState where
  defaultTimeout : Option Rat
deriving DecidableEq

/-- `socket.getdefaulttimeout()`. -/
def getdefaulttimeout (s : SockState) : Option Rat := s.defaultTimeout

/-- `socket.setdefaulttimeout(v)`. -/
def setdefaulttimeout (v : Option Rat) (s : SockState) : SockState :=
  { s with defaultTimeout := v }

/-- The `resolver_timeout` context manager of `Subenum.py` lines 95-103:
save the old default timeout, set the new one, run the body (which may raise
and may itself change the state), and restore the old value in the `finally`
block — also when the body raises. -/
def resolver_timeout {A : Type} (seconds : Rat)
    (body : SockState → SockState × Except PyErr A) (s : SockState) :
    SockState × Except PyErr A :=
  let old := getdefaulttimeout s
  let s1 := setdefaulttimeout (some seconds) s
  let out := body s1
  (setdefaulttimeout old out.1, out.2)

/-- The sampling loop of `detect_wildcard` (`Subenum.py` lines 109-114), with
the per-label resolution as a stateful, possibly raising action. -/
def wcLoop (resolveSt : String → SockState → SockState × Except PyErr (List String))
    (domain : String) (acc : List String) :
    List String → SockState → SockState × Except PyErr (List String)
  | [], s => (s, Except.ok acc)
  | label :: rest, s =>
    let host := label ++ "." ++ domain
    match resolveSt host s with
    | (s2, Except.ok addrs) => wcLoop resolveSt domain (acc ++ addrs) rest s2
    | (s2, Except.error e) => (s2, Except.error e)

/-- Stateful rendering of `detect_wildcard` (`Subenum.py` lines 105-115): the
whole sampling loop runs inside the `resolver_timeout` context manager. -/
def detect_wildcard_st
    (resolveSt : String → SockState → SockState × Except PyErr (List String))
    (labels : List String) (domain : String) (tries : Nat) (timeout : Rat)
    (s : SockState) : SockState × Except PyErr (List String) :=
  resolver_timeout timeout (wcLoop resolveSt domain [] (labels.take tries)) s

/-- The first successful HEAD response over a port list, in list order:
`some (true, status)` for the first port whose request does not raise. -/
def headFirst (f : String → Nat → Option Nat) (host : String)
    (ports : List Nat) : Option (Bool × Nat) :=
  ports.findSome? (fun p => (f host p).map (fun code => (true, code)))

/-- Keep an already recorded result, otherwise take the new one. -/
def orFirst (x y : Option (Bool × Nat)) : Option (Bool × Nat) :=
  match x with
  | some r => some r
  | none => y

/-- A concrete DNS environment in which the operating system can resolve
`www.example.com` to `1.2.3.4`. -/
def exampleDns : DnsEnv :=
  ⟨fun h => if h = "www.example.com" then some ["1.2.3.4"] else none⟩

/-- A concrete scan environment: `www.example.com` resolves to `1.2.3.4`,
no wildcard samples answer, the `requests` library is absent. -/
def envSimple : ScanEnv :=
  { resolves := fun h => if h = "www.example.com" then ["1.2.3.4"] else []
  , wcLabels := []
  , requestsAvailable := false
  , crtshResponse := none
  , httpHead := fun _ _ => none
  , httpsHead := fun _ _ => none }

/-- The finding that a scan of `example.com` over the word list `["www"]`
produces in the environment `envSimple`. -/
def fWitness : Finding :=
  ⟨"www.example.com", ["1.2.3.4"], false, none, none, none, none⟩

theorem mem_dedupeAux (seen : List String) (l : List String) (x : String) :
    x ∈ dedupeAux seen l ↔ x ∈ l ∧ x ∉ seen := by
  induction l generalizing seen with
  | nil => simp [dedupeAux]
  | cons a xs ih =>
    have hxa : x = a → (a ∈ seen ↔ x ∈ seen) := by
      intro h; rw [h]
    by_cases ha : a ∈ seen
    · simp only [dedupeAux, if_pos ha, ih, List.mem_cons]
      constructor
      · rintro ⟨hx, hs⟩
        exact ⟨Or.inr hx, hs⟩
      · rintro ⟨hx | hx, hs⟩
        · exact absurd ((hxa hx).mp ha) hs
        · exact ⟨hx, hs⟩
    · simp only [dedupeAux, if_neg ha, List.mem_cons, ih, List.mem_cons]
      constructor
      · rintro (rfl | ⟨hx, hs⟩)
        · exact ⟨Or.inl rfl, ha⟩
        · constructor
          · exact Or.inr hx
          · intro hmem
            exact hs (Or.inr hmem)
      · rintro ⟨hx | hx, hs⟩
        · exact Or.inl hx
        · by_cases hxa2 : x = a
          · exact Or.inl hxa2
          · refine Or.inr ⟨hx, ?_⟩
            rintro (h1 | h1)
            · exact hxa2 h1
            · exact hs h1

theorem mem_dedupe (l : List String) (x : String) : x ∈ dedupe l ↔ x ∈ l := by
  simp [dedupe, mem_dedupeAux]

theorem nodup_dedupeAux (seen : List String) (l : List String) :
    (dedupeAux seen l).Nodup := by
  induction l generalizing seen with
  | nil => simp [dedupeAux]
  | cons a xs ih =>
    by_cases ha : a ∈ seen
    · simpa [dedupeAux, if_pos ha] using ih seen
    · simp only [dedupeAux, if_neg ha]
      refine List.nodup_cons.mpr ⟨?_, ih (a :: seen)⟩
      intro hmem
      exact ((mem_dedupeAux (a :: seen) xs a).mp hmem).2 (List.mem_cons_self a seen)

theorem nodup_dedupe (l : List String) : (dedupe l).Nodup :=
  nodup_dedupeAux [] l

theorem pairwise_indexOf_dedupeAux (seen : List String) (l : List String) :
    (dedupeAux seen l).Pairwise (fun x y => l.indexOf x < l.indexOf y) := by
  induction l generalizing seen with
  | nil => simp [dedupeAux]
  | cons a xs ih =>
    by_cases ha : a ∈ seen
    · simp only [dedupeAux, if_pos ha]
      refine (ih seen).imp_of_mem ?_
      intro x y hx hy hlt
      have hxs := (mem_dedupeAux seen xs x).mp hx
      have hys := (mem_dedupeAux seen xs y).mp hy
      have hxa : a ≠ x := by
        intro h; exact hxs.2 (by rw [← h]; exact ha)
      have hya : a ≠ y := by
        intro h; exact hys.2 (by rw [← h]; exact ha)
      rw [List.indexOf_cons_ne xs hxa, List.indexOf_cons_ne xs hya]
      exact Nat.succ_lt_succ hlt
    · simp only [dedupeAux, if_neg ha]
      refine List.pairwise_cons.mpr ⟨?_, ?_⟩
      · intro y hy
        have hys := (mem_dedupeAux (a :: seen) xs y).mp hy
        have hya : a ≠ y := by
          intro h
          exact hys.2 (by rw [← h]; exact List.mem_cons_self a seen)
        rw [List.indexOf_cons_self, List.indexOf_cons_ne xs hya]
        exact Nat.succ_pos _
      · refine (ih (a :: seen)).imp_of_mem ?_
        intro x y hx hy hlt
        have hxs := (mem_dedupeAux (a :: seen) xs x).mp hx
        have hys := (mem_dedupeAux (a :: seen) xs y).mp hy
        have hxa : a ≠ x := by
          intro h
          exact hxs.2 (by rw [← h]; exact List.mem_cons_self a seen)
        have hya : a ≠ y := by
          intro h
          exact hys.2 (by rw [← h]; exact List.mem_cons_self a seen)
        rw [List.indexOf_cons_ne xs hxa, List.indexOf_cons_ne xs hya]
        exact Nat.succ_lt_succ hlt

/-- First-seen order: the deduplicated list is strictly sorted by the index of
the first occurrence in the original list. -/
theorem pairwise_indexOf_dedupe (l : List String) :
    (dedupe l).Pairwise (fun x y => l.indexOf x < l.indexOf y) :=
  pairwise_indexOf_dedupeAux [] l

/-- `dedupe` leaves an already duplicate-free list unchanged. -/
theorem dedupeAux_eq_self (seen : List String) (l : List String)
    (hn : l.Nodup) (hd : ∀ x ∈ l, x ∉ seen) : dedupeAux seen l = l := by
  induction l generalizing seen with
  | nil => rfl
  | cons a xs ih =>
    have ha : a ∉ seen := hd a (List.mem_cons_self a xs)
    simp only [dedupeAux, if_neg ha]
    have hn2 := List.nodup_cons.mp hn
    congr 1
    refine ih (a :: seen) hn2.2 ?_
    intro x hx
    intro hmem
    rcases List.mem_cons.mp hmem with h1 | h1
    · exact hn2.1 (h1 ▸ hx)
    · exact hd x (List.mem_cons_of_mem a hx) h1

theorem dedupe_idem (l : List String) : dedupe (dedupe l) = dedupe l :=
  dedupeAux_eq_self [] (dedupe l) (nodup_dedupe l) (by intro x _ h; exact (List.not_mem_nil x) h)

/-- Because `timeout` is not a `getaddrinfo` keyword, the call raises
`TypeError` and the blanket `except` turns every lookup — including ones the
operating system could resolve — into `[]`. -/
theorem resolve_host_always_empty (env : DnsEnv) (host : String) (timeout : Rat) :
    resolve_host env host timeout = [] := rfl

theorem toNat_toLower_of_upper (c : Char) (h : c.toNat ≥ 65 ∧ c.toNat ≤ 90) :
    (Char.toLower c).toNat = c.toNat + 32 := by
  have hval : (c.toNat + 32).isValidChar := Or.inl (by omega)
  simp only [Char.toLower, if_pos h, Char.ofNat, dif_pos hval]
  simp [Char.ofNatAux, Char.toNat, UInt32.toNat]

theorem toLower_toLower (c : Char) : Char.toLower (Char.toLower c) = Char.toLower c := by
  by_cases h : c.toNat ≥ 65 ∧ c.toNat ≤ 90
  · have ht := toNat_toLower_of_upper c h
    have : ¬ ((Char.toLower c).toNat ≥ 65 ∧ (Char.toLower c).toNat ≤ 90) := by
      rw [ht]; omega
    conv_lhs => rw [Char.toLower]
    rw [if_neg this]
  · conv_lhs => rw [show Char.toLower c = c from by rw [Char.toLower, if_neg h]]

theorem pyLower_idem (s : String) : pyLower (pyLower s) = pyLower s := by
  simp only [pyLower, String.toList, List.map_map]
  congr 1
  exact List.map_congr_left (fun c _ => toLower_toLower c)

theorem mem_pySortedSet (l : List String) (x : String) :
    x ∈ pySortedSet l ↔ x ∈ l := by
  rw [pySortedSet,
    (List.perm_insertionSort (fun a b : String => a ≤ b) l.dedup).mem_iff]
  exact List.mem_dedup

theorem pySortedSet_sorted (l : List String) :
    (pySortedSet l).Pairwise (fun a b : String => a < b) := by
  have hs : List.Sorted (fun a b : String => a ≤ b) (pySortedSet l) :=
    List.sorted_insertionSort (fun a b : String => a ≤ b) l.dedup
  have hn : (pySortedSet l).Nodup :=
    (List.perm_insertionSort (fun a b : String => a ≤ b) l.dedup).nodup_iff.mpr
      (List.nodup_dedup l)
  exact List.Sorted.lt_of_le hs hn

theorem worker_some_spec (env : ScanEnv) (W : List String) (timeout : Rat)
    (probe : Bool) (ports : List Nat) (host : String) (f : Finding)
    (h : worker env W timeout probe ports host = some f) :
    f.host = host ∧ f.addresses = env.resolves host ∧ env.resolves host ≠ [] ∧
      f.is_wildcard = (!W.isEmpty && (env.resolves host).all (fun a => W.contains a)) ∧
      (probe = false → f.http_open = none ∧ f.http_status = none ∧
        f.https_open = none ∧ f.https_status = none) := by
  by_cases haddr : env.resolves host = []
  · rw [worker] at h
    simp only [haddr, if_pos rfl] at h
    cases h
  · rw [worker] at h
    simp only [if_neg haddr] at h
    by_cases hb : (!(!W.isEmpty && (env.resolves host).all (fun a => W.contains a)) && probe) = true
    · rw [if_pos hb] at h
      have hp : probe = true := by
        cases probe
        · simp at hb
        · rfl
      rcases hres1 : (probe_http env host ports 3).1 with _ | pr1 <;>
        rcases hres2 : (probe_http env host ports 3).2 with _ | pr2 <;>
          simp only [hres1, hres2] at h <;> rw [Option.some_inj] at h <;>
            subst h <;> simp [haddr, hp]
    · rw [if_neg hb] at h
      rw [Option.some_inj] at h
      subst h
      simp [haddr]

theorem worker_of_resolves (env : ScanEnv) (W : List String) (timeout : Rat)
    (probe : Bool) (ports : List Nat) (host : String)
    (haddr : env.resolves host ≠ []) :
    ∃ f, worker env W timeout probe ports host = some f := by
  rw [worker]
  simp only [if_neg haddr]
  by_cases hb : (!(!W.isEmpty && (env.resolves host).all (fun a => W.contains a)) && probe) = true
  · rw [if_pos hb]
    exact ⟨_, rfl⟩
  · rw [if_neg hb]
    exact ⟨_, rfl⟩

theorem mem_enumerate_iff (env : ScanEnv) (domain : String) (words : List String)
    (threads : Nat) (timeout : Rat) (use_passive : Bool) (probe : Bool)
    (ports : Option (List Nat)) (f : Finding) :
    f ∈ enumerate_subdomains env domain words threads timeout use_passive probe ports ↔
      (∃ host ∈ candidatesOf env domain words use_passive,
        worker env (detect_wildcard env domain 3 timeout) timeout probe (portsOf ports) host
          = some f) ∧ f.is_wildcard = false := by
  rw [enumerate_subdomains]
  rw [(List.perm_insertionSort findingLe _).mem_iff]
  rw [List.mem_filter, List.mem_filterMap]
  simp [Bool.not_eq_true']

theorem map_filterMap_sublist {α β : Type} (g : α → Option β) (h : β → α)
    (hg : ∀ a b, g a = some b → h b = a) (l : List α) :
    List.Sublist ((l.filterMap g).map h) l := by
  induction l with
  | nil => simp
  | cons a xs ih =>
    rcases hga : g a with _ | b
    · rw [List.filterMap_cons_none hga]
      exact ih.cons a
    · rw [List.filterMap_cons_some hga, List.map_cons, hg a b hga]
      exact ih.cons₂ a

theorem candidatesOf_nodup (env : ScanEnv) (domain : String) (words : List String)
    (use_passive : Bool) : (candidatesOf env domain words use_passive).Nodup := by
  rw [candidatesOf]
  by_cases hp : use_passive = true
  · rw [hp, if_pos rfl]
    exact nodup_dedupe _
  · simp only [Bool.not_eq_true] at hp
    rw [hp, if_neg Bool.false_ne_true]
    exact nodup_dedupe _

theorem enumerate_hosts_nodup (env : ScanEnv) (domain : String) (words : List String)
    (threads : Nat) (timeout : Rat) (use_passive : Bool) (probe : Bool)
    (ports : Option (List Nat)) :
    ((enumerate_subdomains env domain words threads timeout use_passive probe ports).map
      Finding.host).Nodup := by
  rw [enumerate_subdomains]
  have hperm := List.perm_insertionSort findingLe
    (((candidatesOf env domain words use_passive).filterMap
        (worker env (detect_wildcard env domain 3 timeout) timeout probe (portsOf ports))).filter
      (fun f => !f.is_wildcard))
  refine (hperm.map Finding.host).nodup_iff.mpr ?_
  have hsub1 : List.Sublist
      ((((candidatesOf env domain words use_passive).filterMap
          (worker env (detect_wildcard env domain 3 timeout) timeout probe (portsOf ports))).filter
        (fun f => !f.is_wildcard)).map Finding.host)
      ((((candidatesOf env domain words use_passive).filterMap
          (worker env (detect_wildcard env domain 3 timeout) timeout probe (portsOf ports)))).map
        Finding.host) :=
    (List.filter_sublist _).map Finding.host
  have hsub2 : List.Sublist
      ((((candidatesOf env domain words use_passive).filterMap
          (worker env (detect_wildcard env domain 3 timeout) timeout probe (portsOf ports)))).map
        Finding.host)
      (candidatesOf env domain words use_passive) :=
    map_filterMap_sublist _ Finding.host
      (fun a b hb => (worker_some_spec env _ timeout probe (portsOf ports) a b hb).1) _
  exact ((hsub1.trans hsub2).nodup (candidatesOf_nodup env domain words use_passive))


theorem probeLoop_eq (env : ScanEnv) (host : String) (l : List Nat)
    (a b : Option (Bool × Nat)) :
    probeLoop env host a b l =
      (orFirst a (headFirst env.httpHead host l),
       orFirst b (headFirst env.httpsHead host l)) := by
  induction l generalizing a b with
  | nil => cases a <;> cases b <;> simp [probeLoop, headFirst, orFirst]
  | cons p rest ih =>
    simp only [probeLoop]
    cases a <;> cases b <;>
      rcases hh : env.httpHead host p with _ | c1 <;>
        rcases hs : env.httpsHead host p with _ | c2 <;>
          simp [hh, hs, ih, headFirst, List.findSome?_cons, orFirst]

/-- Claim C3: determinism of candidate dedupe.  The candidate list built by
`enumerate_subdomains` from the word list (`buildCandidates`) contains each
distinct hostname `trimmed-lowercase(word) + "." + domain` exactly once
(duplicate-free, membership exactly the image of the non-blank words), in the
order in which its first occurrence appears in the comprehension over the word
list; entries that are empty after trimming are skipped. -/
theorem candidate_dedupe_deterministic (domain : String) (words : List String) :
    (buildCandidates domain words).Nodup ∧
    (∀ x, x ∈ buildCandidates domain words ↔
      ∃ w ∈ words, pyStrip w ≠ "" ∧ x = pyLower (pyStrip w) ++ "." ++ domain) ∧
    (buildCandidates domain words).Pairwise
      (fun x y => (candidateSeq domain words).indexOf x <
        (candidateSeq domain words).indexOf y) := by
  refine ⟨nodup_dedupe _, ?_, pairwise_indexOf_dedupe _⟩
  intro x
  rw [buildCandidates, mem_dedupe, candidateSeq, List.mem_map]
  constructor
  · rintro ⟨w, hw, rfl⟩
    rw [List.mem_filter] at hw
    exact ⟨w, hw.1, by simpa using hw.2, rfl⟩
  · rintro ⟨w, hw, hne, rfl⟩
    exact ⟨w, List.mem_filter.mpr ⟨hw, by simpa using hne⟩, rfl⟩

/-- Claim C4: sort invariant.  The list returned by `enumerate_subdomains` is
strictly ascending by the `host` field; in particular no two findings share a
host. -/
theorem enumerate_sort_invariant (env : ScanEnv) (domain : String)
    (words : List String) (threads : Nat) (timeout : Rat) (use_passive : Bool)
    (probe : Bool) (ports : Option (List Nat)) :
    (enumerate_subdomains env domain words threads timeout use_passive probe
      ports).Pairwise (fun a b => a.host < b.host) := by
  have hs : List.Sorted findingLe
      (enumerate_subdomains env domain words threads timeout use_passive probe ports) := by
    rw [enumerate_subdomains]
    exact List.sorted_insertionSort findingLe _
  have hn := enumerate_hosts_nodup env domain words threads timeout use_passive probe ports
  have hne : (enumerate_subdomains env domain words threads timeout use_passive probe
      ports).Pairwise (fun a b => a.host ≠ b.host) := List.pairwise_map.mp hn
  exact (hs.and hne).imp (fun h => lt_of_le_of_ne h.1 h.2)

/-- Claim C5: `probe_http` records, independently per protocol, the first
successful HEAD response in port-list order (a request exception at a port is
swallowed, so the next port is tried), the early exit once both protocols have
a result not affecting the value, and it returns `(absent, absent)` without
raising when the `requests` library is unavailable. -/
theorem probe_http_first_success (env : ScanEnv) (host : String)
    (ports : List Nat) (timeout : Rat) :
    (env.requestsAvailable = false → probe_http env host ports timeout = (none, none)) ∧
    (env.requestsAvailable = true → probe_http env host ports timeout =
      (headFirst env.httpHead host ports, headFirst env.httpsHead host ports)) := by
  constructor
  · intro h
    simp [probe_http, h]
  · intro h
    rw [probe_http, h]
    simp only [Bool.not_true, Bool.false_eq_true, if_false]
    rw [probeLoop_eq]
    rfl

/-- Claim C2: `resolve_host` is supposed to forward-resolve a host and return
its final IP literals, but the source passes the unsupported keyword `timeout`
to `socket.getaddrinfo`; the resulting `TypeError` is swallowed by the blanket
`except`, so even a host the operating system resolves to `1.2.3.4` yields
`[]`.  (The failure half of the claim — empty list, no exception — does hold:
`resolve_host` is total and constantly `[]`.) -/
theorem resolve_host_drops_resolvable_host :
    exampleDns.lookup "www.example.com" = some ["1.2.3.4"] ∧
    resolve_host exampleDns "www.example.com" (5 / 2) = [] :=
  ⟨rfl, rfl⟩

/-- Claim C10: `detect_wildcard` mutates the process-wide default socket
timeout only inside the `resolver_timeout` context manager, whose `finally`
block restores the previous value — also when a resolution inside the sampling
loop raises, and whatever the loop body does to the state.  After every call
the global default timeout equals its value before the call. -/
theorem detect_wildcard_restores_default_timeout
    (resolveSt : String → SockState → SockState × Except PyErr (List String))
    (labels : List String) (domain : String) (tries : Nat) (timeout : Rat)
    (s : SockState) :
    ((detect_wildcard_st resolveSt labels domain tries timeout s).1).defaultTimeout
      = s.defaultTimeout := rfl

/-- Claim C1: wildcard containment law.  For a candidate host whose resolved
address set is non-empty: if the wildcard set computed by `detect_wildcard` is
non-empty and contains every resolved address, no finding for that host
appears in the output of `enumerate_subdomains`; if the wildcard set is empty,
or some resolved address lies outside it (disjoint or partial overlap), a
finding for that host — carrying exactly its resolved addresses — is
retained. -/
theorem wildcard_containment (env : ScanEnv) (domain : String) (words : List String)
    (threads : Nat) (timeout : Rat) (use_passive : Bool) (probe : Bool)
    (ports : Option (List Nat)) (host : String)
    (hc : host ∈ candidatesOf env domain words use_passive)
    (hA : env.resolves host ≠ []) :
    ((detect_wildcard env domain 3 timeout ≠ [] ∧
        ∀ a ∈ env.resolves host, a ∈ detect_wildcard env domain 3 timeout) →
      ∀ f ∈ enumerate_subdomains env domain words threads timeout use_passive probe ports,
        f.host ≠ host) ∧
    ((detect_wildcard env domain 3 timeout = [] ∨
        ∃ a ∈ env.resolves host, a ∉ detect_wildcard env domain 3 timeout) →
      ∃ f ∈ enumerate_subdomains env domain words threads timeout use_passive probe ports,
        f.host = host ∧ f.addresses = env.resolves host) := by
  constructor
  · rintro ⟨hW, hsub⟩ f hf hfh
    rcases (mem_enumerate_iff env domain words threads timeout use_passive probe ports f).mp hf
      with ⟨⟨h0, hh0, hw⟩, hwc⟩
    have spec := worker_some_spec env _ timeout probe (portsOf ports) h0 f hw
    have hh : h0 = host := by rw [← spec.1, hfh]
    subst hh
    have hform := spec.2.2.2.1
    rw [hwc] at hform
    have htrue : (!(detect_wildcard env domain 3 timeout).isEmpty &&
        (env.resolves h0).all
          (fun a => (detect_wildcard env domain 3 timeout).contains a)) = true := by
      rw [Bool.and_eq_true]
      constructor
      · cases hWe : (detect_wildcard env domain 3 timeout).isEmpty
        · rfl
        · exact absurd (List.isEmpty_iff.mp hWe) hW
      · rw [List.all_eq_true]
        intro a ha
        simpa using hsub a ha
    rw [← hform] at htrue
    exact Bool.noConfusion htrue
  · intro hcase
    rcases worker_of_resolves env (detect_wildcard env domain 3 timeout) timeout probe
        (portsOf ports) host hA with ⟨f, hw⟩
    have spec := worker_some_spec env _ timeout probe (portsOf ports) host f hw
    have hwc : f.is_wildcard = false := by
      rw [spec.2.2.2.1]
      rcases hcase with hW | ⟨a, ha, hout⟩
      · rw [hW]
        rfl
      · have hall : (env.resolves host).all
            (fun a => (detect_wildcard env domain 3 timeout).contains a) = false := by
          rw [List.all_eq_false]
          refine ⟨a, ha, ?_⟩
          simpa using hout
        rw [hall, Bool.and_false]
    exact ⟨f, (mem_enumerate_iff env domain words threads timeout use_passive probe ports f).mpr
      ⟨⟨host, hc, hw⟩, hwc⟩, spec.1, spec.2.1⟩

/-- Witness for C1 at a concrete input: in `envSimple` the sole candidate
`www.example.com` of a scan of `example.com` over `["www"]` resolves, and the
containment law is exercised there. -/
theorem wildcard_containment_witness :
    "www.example.com" ∈ candidatesOf envSimple "example.com" ["www"] false ∧
    envSimple.resolves "www.example.com" ≠ [] ∧
    (((detect_wildcard envSimple "example.com" 3 (5 / 2) ≠ [] ∧
        ∀ a ∈ envSimple.resolves "www.example.com",
          a ∈ detect_wildcard envSimple "example.com" 3 (5 / 2)) →
      ∀ f ∈ enumerate_subdomains envSimple "example.com" ["www"] 200 (5 / 2) false false none,
        f.host ≠ "www.example.com") ∧
    ((detect_wildcard envSimple "example.com" 3 (5 / 2) = [] ∨
        ∃ a ∈ envSimple.resolves "www.example.com",
          a ∉ detect_wildcard envSimple "example.com" 3 (5 / 2)) →
      ∃ f ∈ enumerate_subdomains envSimple "example.com" ["www"] 200 (5 / 2) false false none,
        f.host = "www.example.com" ∧
          f.addresses = envSimple.resolves "www.example.com")) :=
  ⟨by decide, by decide,
    wildcard_containment envSimple "example.com" ["www"] 200 (5 / 2) false false none
      "www.example.com" (by decide) (by decide)⟩

/-- Claim C6: output Finding invariant.  Every finding returned by
`enumerate_subdomains` has a non-empty address list — exactly the resolved
addresses of its host, so a host whose resolution fails never yields a
finding — and `is_wildcard = false`; with probing disabled all four probe
fields are `none`, never `false`. -/
theorem enumerate_finding_invariant (env : ScanEnv) (domain : String)
    (words : List String) (threads : Nat) (timeout : Rat) (use_passive : Bool)
    (probe : Bool) (ports : Option (List Nat)) (f : Finding)
    (hf : f ∈ enumerate_subdomains env domain words threads timeout use_passive probe ports) :
    f.addresses ≠ [] ∧ f.is_wildcard = false ∧ f.addresses = env.resolves f.host ∧
      (probe = false → f.http_open = none ∧ f.http_status = none ∧
        f.https_open = none ∧ f.https_status = none) := by
  rcases (mem_enumerate_iff env domain words threads timeout use_passive probe ports f).mp hf
    with ⟨⟨h0, hh0, hw⟩, hwc⟩
  have spec := worker_some_spec env _ timeout probe (portsOf ports) h0 f hw
  refine ⟨?_, hwc, ?_, spec.2.2.2.2⟩
  · rw [spec.2.1]
    exact spec.2.2.1
  · rw [spec.2.1, spec.1]

/-- Witness for C6 at a concrete input: the scan of `example.com` over
`["www"]` in `envSimple`, probing disabled, emits the finding `fWitness`,
which satisfies the invariant. -/
theorem enumerate_finding_invariant_witness :
    fWitness ∈ enumerate_subdomains envSimple "example.com" ["www"] 200 (5 / 2)
      false false none ∧
    (fWitness.addresses ≠ [] ∧ fWitness.is_wildcard = false ∧
      fWitness.addresses = envSimple.resolves fWitness.host ∧
      (false = false → fWitness.http_open = none ∧ fWitness.http_status = none ∧
        fWitness.https_open = none ∧ fWitness.https_status = none)) :=
  ⟨by decide, enumerate_finding_invariant envSimple "example.com" ["www"] 200 (5 / 2)
    false false none fWitness (by decide)⟩

/-- Claim C8: partial-failure isolation.  When the passive source fails (the
`from_crtsh` call returns `[]`), a scan with passive enabled returns exactly
the findings of the same scan with passive disabled. -/
theorem passive_failure_isolation (env : ScanEnv) (domain : String)
    (words : List String) (threads : Nat) (timeout : Rat) (probe : Bool)
    (ports : Option (List Nat)) (hfail : from_crtsh env domain 8 = []) :
    enumerate_subdomains env domain words threads timeout true probe ports =
      enumerate_subdomains env domain words threads timeout false probe ports := by
  have hc : candidatesOf env domain words true = candidatesOf env domain words false := by
    simp only [candidatesOf]
    rw [if_pos trivial, if_neg Bool.false_ne_true, hfail, List.append_nil, buildCandidates,
      dedupe_idem]
  simp only [enumerate_subdomains]
  rw [hc]

/-- Witness for C8 at a concrete input: in `envSimple` the `requests` library
is absent, so `from_crtsh` fails, and the passive and non-passive scans of
`example.com` over `["www"]` coincide. -/
theorem passive_failure_isolation_witness :
    from_crtsh envSimple "example.com" 8 = [] ∧
    enumerate_subdomains envSimple "example.com" ["www"] 200 (5 / 2) true false none =
      enumerate_subdomains envSimple "example.com" ["www"] 200 (5 / 2) false false none :=
  ⟨rfl, passive_failure_isolation envSimple "example.com" ["www"] 200 (5 / 2) false none rfl⟩

/-- Claim C7: passive source adapter contract.  `from_crtsh` returns a
strictly ascending (hence deduplicated) list whose entries are lowercase and
end with `"." + domain` or equal the domain; and it returns the empty list —
never raising — when the `requests` library is unavailable, when the HTTP
request raises, when the response status is not 200, and when the JSON payload
is malformed. -/
theorem from_crtsh_contract (env : ScanEnv) (domain : String) (timeout : Rat) :
    (from_crtsh env domain timeout).Pairwise (fun a b => a < b) ∧
    (∀ n ∈ from_crtsh env domain timeout,
      pyLower n = n ∧ (pyEndsWith n ("." ++ domain) = true ∨ n = domain)) ∧
    (env.requestsAvailable = false → from_crtsh env domain timeout = []) ∧
    (env.crtshResponse = none → from_crtsh env domain timeout = []) ∧
    (∀ status payload, env.crtshResponse = some (status, payload) → status ≠ 200 →
      from_crtsh env domain timeout = []) ∧
    (∀ status, env.crtshResponse = some (status, none) →
      from_crtsh env domain timeout = []) := by
  have hmain : from_crtsh env domain timeout = [] ∨
      ∃ rows : List (Option String),
        from_crtsh env domain timeout = pySortedSet (rows.flatMap (fun row =>
          ((row.getD "").splitOn "\n").filterMap (fun n0 =>
            if pyEndsWith (pyLower (pyStrip n0)) ("." ++ domain) || pyLower (pyStrip n0) = domain
            then some (pyLower (pyStrip n0)) else none))) := by
    rw [from_crtsh]
    cases hreq : env.requestsAvailable
    · exact Or.inl rfl
    · rcases hcr : env.crtshResponse with _ | ⟨status, payload⟩
      · exact Or.inl rfl
      · by_cases hst : status ≠ 200
        · left
          simp [hst]
        · have h200 : status = 200 := not_ne_iff.mp hst
          rcases payload with _ | rows
          · left
            simp [h200]
          · right
            refine ⟨rows, ?_⟩
            simp [h200]
  refine ⟨?_, ?_, ?_, ?_, ?_, ?_⟩
  · rcases hmain with hz | ⟨rows, heq⟩
    · rw [hz]
      exact List.Pairwise.nil
    · rw [heq]
      exact pySortedSet_sorted _
  · intro n hn
    rcases hmain with hz | ⟨rows, heq⟩
    · rw [hz] at hn
      cases hn
    · rw [heq, mem_pySortedSet, List.mem_flatMap] at hn
      rcases hn with ⟨row, _, hn⟩
      rw [List.mem_filterMap] at hn
      rcases hn with ⟨n0, _, hn⟩
      by_cases hcond : (pyEndsWith (pyLower (pyStrip n0)) ("." ++ domain) ||
          decide (pyLower (pyStrip n0) = domain)) = true
      · rw [if_pos hcond, Option.some_inj] at hn
        subst hn
        refine ⟨pyLower_idem _, ?_⟩
        rcases Bool.or_eq_true_iff.mp hcond with h1 | h1
        · exact Or.inl h1
        · exact Or.inr (by simpa using h1)
      · rw [if_neg hcond] at hn
        cases hn
  · intro h
    rw [from_crtsh, h]
    rfl
  · intro h
    rw [from_crtsh, h]
    cases env.requestsAvailable <;> rfl
  · intro status payload h hne
    rw [from_crtsh, h]
    cases env.requestsAvailable
    · rfl
    · simp [hne]
  · intro status h
    rw [from_crtsh, h]
    cases env.requestsAvailable
    · rfl
    · by_cases hst : status = 200 <;> simp [hst]

end Subenum
